import Mathlib

/-!
# Verification of the OMRChecker serverless web worker

Shallow embedding of the OMR detection pipeline of
`src/serverless_web/workers/image-worker.js` and of the batch queue of
`src/serverless_web/assets/js/batch-processor.js`, together with theorems
settling the specification claims about it.

JavaScript numbers are modelled as `ℚ` (the pipeline only performs
field arithmetic on them; `Math.sqrt` is abstracted as an oracle
parameter where it occurs, since no claim depends on its value).
-/

/-- Maximum of a list of rationals, as `Math.max(...values)` on a
non-empty argument list (the embedding only applies it to non-empty
lists; `[]` is mapped to `0`). -/
def listMax : List ℚ → ℚ
  | [] => 0
  | x :: xs => xs.foldl max x

/-- Minimum of a list of rationals, as `Math.min(...values)` on a
non-empty argument list. -/
def listMin : List ℚ → ℚ
  | [] => 0
  | x :: xs => xs.foldl min x

/-- The ascending sort `[...values].sort((a, b) => a - b)` used by both
threshold routines. -/
def sortedVals (values : List ℚ) : List ℚ :=
  List.insertionSort (fun a b => a ≤ b) values

/-- The jump `sorted[i + ls] - sorted[i - ls]` read during the gap scan
(out-of-range reads never occur in the embedded loops). -/
def jumpAt (sorted : List ℚ) (ls i : ℕ) : ℚ :=
  sorted.getD (i + ls) 0 - sorted.getD (i - ls) 0

/-- The midpoint `sorted[i - ls] + jump / 2` stored when the scan finds a
new largest jump. -/
def midAt (sorted : List ℚ) (ls i : ℕ) : ℚ :=
  sorted.getD (i - ls) 0 + jumpAt sorted ls i / 2

/-- One iteration of the largest-gap scan shared by
`calculateGlobalThreshold` and `calculateLocalThreshold`: the state is
the pair `(maxJump, threshold)`. -/
def gapStep (sorted : List ℚ) (ls : ℕ) (st : ℚ × ℚ) (i : ℕ) : ℚ × ℚ :=
  if st.1 < jumpAt sorted ls i then (jumpAt sorted ls i, midAt sorted ls i) else st

/-- The whole scan loop, folding `gapStep` over the index list from an
initial `(maxJump, threshold)` state. -/
def gapScan (sorted : List ℚ) (ls : ℕ) (init : ℚ × ℚ) (idxs : List ℕ) : ℚ × ℚ :=
  idxs.foldl (gapStep sorted ls) init

/-- The index list `i = ls, …, (sorted.length - ls) - 1` scanned by
`calculateGlobalThreshold`. -/
def scanIdxs (n ls : ℕ) : List ℕ :=
  List.range' ls (n - ls - ls)

/-- Embedding of `calculateGlobalThreshold(values, looseness = 4)`
(image-worker.js, lines 1235-1261): empty input gives 255, fewer than 3
values give the maximum, otherwise the looseness-window gap scan runs
with `ls = (looseness + 1) // 2`, floor `MIN_JUMP = 25` and default
threshold 255. -/
def calculateGlobalThreshold (values : List ℚ) (looseness : ℕ) : ℚ :=
  if values.length = 0 then 255
  else if values.length < 3 then listMax values
  else
    let sorted := sortedVals values
    let ls := (looseness + 1) / 2
    (gapScan sorted ls (25, 255) (scanIdxs sorted.length ls)).2

/-- Embedding of
`calculateLocalThreshold(stripValues, globalThreshold, noOutliers = false)`
(image-worker.js, lines 1267-1302): fewer than 3 values use the max/min
range, otherwise the scan reads `sorted[i + 1] - sorted[i - 1]` for
`i = 1, …, length - 2`; when the found maximum jump is below
`MIN_JUMP + CONFIDENT_SURPLUS = 30` and `noOutliers` holds, the global
threshold is used instead. -/
def calculateLocalThreshold (stripValues : List ℚ) (globalThreshold : ℚ)
    (noOutliers : Bool) : ℚ :=
  if stripValues.length = 0 then globalThreshold
  else if stripValues.length < 3 then
    if listMax stripValues - listMin stripValues < 25 then globalThreshold
    else (listMax stripValues + listMin stripValues) / 2
  else
    let sorted := sortedVals stripValues
    let st := gapScan sorted 1 (25, 255) (scanIdxs sorted.length 1)
    if st.1 < 30 then (if noOutliers then globalThreshold else st.2) else st.2

/-- The procedure claimed by the spec for the global threshold: the same
largest-gap scan but with half-window `⌈(looseness + 1) / 2⌉` and with
the *maximum observed value* as the default threshold when no jump
exceeds the floor. -/
def claimedGlobalThreshold (values : List ℚ) (looseness : ℕ) : ℚ :=
  let sorted := sortedVals values
  let ls := (looseness + 2) / 2
  (gapScan sorted ls (25, listMax values) (scanIdxs sorted.length ls)).2

/-- The local-threshold procedure claimed by the spec: largest jump
between *immediate neighbours* `sorted[i + 1] - sorted[i]` of the sorted
means, its midpoint when confident, otherwise the global threshold on a
no-outliers strip. -/
def claimedLocalThreshold (stripValues : List ℚ) (globalThreshold : ℚ)
    (noOutliers : Bool) : ℚ :=
  let sorted := sortedVals stripValues
  let st := (List.range' 0 (stripValues.length - 1)).foldl
    (fun st i =>
      let jump := sorted.getD (i + 1) 0 - sorted.getD i 0
      if st.1 < jump then (jump, sorted.getD i 0 + jump / 2) else st)
    ((25 : ℚ), (255 : ℚ))
  if 30 < st.1 then st.2 else if noOutliers then globalThreshold else st.2

/-- Errors thrown by the embedded template-parsing and alignment code
(`throw new Error(...)` sites, distinguished by message). -/
inductive TErr where
  | formatError
  | invalidFieldString (s : List Char)
  | invalidRange (s : List Char)
  | boundaryNotFound
  | markerNotFound (q : ℕ) (score : ℚ)
deriving DecidableEq

/-- `parseInt` on a string of decimal digits. -/
def natFromDigits (ds : List Char) : ℕ :=
  ds.foldl (fun n c => 10 * n + (c.toNat - 48)) 0

/-- Fuel-driven decimal writer (the fuel is an upper bound on the number
of digits, so `natRepr` below is total and kernel-computable). -/
def natReprAux : ℕ → ℕ → List Char
  | 0, _ => []
  | fuel + 1, n =>
    if n < 10 then [Char.ofNat (48 + n)]
    else natReprAux fuel (n / 10) ++ [Char.ofNat (48 + n % 10)]

/-- The decimal representation a JavaScript template literal `${i}`
produces for a natural number. -/
def natRepr (n : ℕ) : List Char :=
  natReprAux (n + 1) n

/-- `pat` is a prefix of the second list (helper for `containsStr`). -/
def strStartsWith : List Char → List Char → Bool
  | [], _ => true
  | _ :: _, [] => false
  | pc :: pcs, c :: cs => pc == c && strStartsWith pcs cs

/-- `String.prototype.includes`: `pat` occurs contiguously in the list. -/
def containsStr (pat : List Char) : List Char → Bool
  | [] => strStartsWith pat []
  | c :: cs => strStartsWith pat (c :: cs) || containsStr pat cs

/-- Embedding of `parseFieldString(fieldString)` (image-worker.js, lines
59-82) on the character list of the token.  A token containing `".."` is
matched against the regular expression `^([^\d]+)(\d+)\.\.(\d+)$`
(equivalently: a non-empty non-digit run, a non-empty digit run, the two
dots, and a non-empty digit run to the end — the character classes are
disjoint, so greedy matching needs no backtracking); `start >= end` is a
range error, otherwise the labels `prefix + i` for `i = start..end` are
produced.  A token without `".."` expands to itself. -/
def parseFieldStringL (s : List Char) : Except TErr (List (List Char)) :=
  if containsStr ['.', '.'] s then
    if s.takeWhile (fun c => !c.isDigit) = [] then .error (.invalidFieldString s)
    else if (s.dropWhile (fun c => !c.isDigit)).takeWhile Char.isDigit = [] then
      .error (.invalidFieldString s)
    else
      match (s.dropWhile (fun c => !c.isDigit)).dropWhile Char.isDigit with
      | '.' :: '.' :: r3 =>
        if r3 = [] then .error (.invalidFieldString s)
        else if r3.all Char.isDigit then
          if natFromDigits r3 ≤
              natFromDigits ((s.dropWhile (fun c => !c.isDigit)).takeWhile Char.isDigit) then
            .error (.invalidRange s)
          else .ok ((List.range' (natFromDigits
              ((s.dropWhile (fun c => !c.isDigit)).takeWhile Char.isDigit))
            (natFromDigits r3 - natFromDigits
              ((s.dropWhile (fun c => !c.isDigit)).takeWhile Char.isDigit) + 1)).map
            (fun i => s.takeWhile (fun c => !c.isDigit) ++ natRepr i))
        else .error (.invalidFieldString s)
      | _ => .error (.invalidFieldString s)
  else .ok [s]

/-- An external contour as seen by the boundary search: the number of
vertices of its polygon approximation (`approxPolyDP(...).rows`) and its
area (`contourArea`), both abstract attributes of the OpenCV contour. -/
structure Contour where
  vertices : ℕ
  area : ℚ
deriving DecidableEq

/-- One iteration of the boundary-candidate loop of `correctPerspective`
(image-worker.js, lines 634-666): the state is `(maxArea, bestApprox)`
and a contour is accepted when it has exactly 4 vertices, beats the
running maximum area, and covers more than 10% of the image. -/
def boundaryStep (imgArea : ℚ) (st : ℚ × Option Contour) (c : Contour) : ℚ × Option Contour :=
  if c.vertices = 4 ∧ st.1 < c.area ∧ imgArea * (1 / 10) < c.area then (c.area, some c) else st

/-- The boundary selection of `correctPerspective`: fold the candidate
loop from `(0, null)` over the external contours; a missing best
candidate is the thrown boundary error ("找不到答案卡邊界"). -/
def findSheetBoundary (imgArea : ℚ) (cs : List Contour) : Except TErr Contour :=
  match (cs.foldl (boundaryStep imgArea) (0, none)).2 with
  | some c => .ok c
  | none => .error .boundaryNotFound

/-- Embedding of the batch loop of `BatchProcessor.startBatch`
(batch-processor.js, lines 146-209): the queue walks the submitted files
in order, appending one entry per file; `process` abstracts
`processFile`, whose failure (`Except.error`) is the caught exception
recorded against that file's entry. -/
def startBatch {σ ε ρ : Type} (process : σ → Except ε ρ) (files : List σ) :
    List (σ × Except ε ρ) :=
  files.foldl (fun acc f => acc ++ [(f, process f)]) []

/-- The outcome of sheet alignment: via the contour strategy (carrying
the contour-strategy result) or via the marker strategy. -/
inductive AlignVia (γ : Type) where
  | contour (g : γ)
  | markerAligned
deriving DecidableEq

/-- Embedding of the control flow of `correctPerspectiveWithMarkers`
(image-worker.js, lines 997-1095 — the second, overriding declaration):
without a loaded marker it returns the contour-strategy result
(`correctPerspective`, abstracted as `contourResult`); with a marker it
walks the four quadrants and **throws** a marker-not-found error at the
first quadrant whose best multi-scale template-matching score (the
oracle `scores`) is below the minimum-confidence floor; otherwise it
aligns by markers.  `scores q` abstracts the maximum of
`cv.matchTemplate` over all marker rescales in quadrant `q`. -/
def alignWithMarkers {γ μ : Type} (contourResult : Except TErr γ) (marker : Option μ)
    (scores : ℕ → ℚ) (minThr : ℚ) : Except TErr (AlignVia γ) :=
  match marker with
  | none => contourResult.map AlignVia.contour
  | some _ =>
    match (List.range 4).find? (fun q => decide (scores q < minThr)) with
    | some q => .error (.markerNotFound q (scores q))
    | none => .ok .markerAligned

/-- The quadrant-score oracle of the C7 counterexample: quadrant 0
matches poorly (0.1), the others well (0.9). -/
def lowScores : ℕ → ℚ := fun q => if q = 0 then 1 / 10 else 9 / 10

/-- `Math.round`, applied by the grid generators to bubble coordinates
(JavaScript rounds half towards positive infinity). -/
def jsRound (q : ℚ) : ℚ := ((⌊q + 1 / 2⌋ : ℤ) : ℚ)

/-- One bubble of the canonical bubble list produced by the template
normalizer. -/
structure Bubble where
  x : ℚ
  y : ℚ
  width : ℚ
  height : ℚ
  fieldLabel : String
  fieldValue : String
deriving DecidableEq

/-- A field block of the Python-compatible `fieldBlocks` template form;
`Option` marks keys the author may omit (the JS destructuring defaults
then apply). -/
structure FieldBlock where
  fieldType : Option String
  origin : Option (ℚ × ℚ)
  bubbleDimensions : Option (ℚ × ℚ)
  bubbleValues : Option (List String)
  bubblesGap : Option ℚ
  direction : Option String
  fieldLabels : Option (List String)
  labelsGap : Option ℚ
deriving DecidableEq

/-- A region of the region-list template form. -/
structure Region where
  originX : ℚ
  originY : ℚ
  qStart : ℕ
  qEnd : ℕ
  questionsGap : Option ℚ
  optionsGap : Option ℚ
  optionValues : Option (List String)
deriving DecidableEq

/-- The `layout` object of the region-list form (present even when its
`regions` key is missing). -/
structure Layout where
  regions : Option (List Region)
deriving DecidableEq

/-- A template document, covering the top-level keys both normalizer
branches probe. -/
structure Template where
  fieldBlocks : Option (List (String × FieldBlock))
  pageDimensions : Option (ℚ × ℚ)
  bubbleDimensions : Option (ℚ × ℚ)
  layout : Option Layout
  answerKey : Option (List (String × String))
  answers : Option (List (String × String))
  pageWidth : Option ℚ
  pageHeight : Option ℚ
  bubbleDiameter : Option ℚ
deriving DecidableEq

/-- The normalizer's output: canonical bubble list, page dimensions and
answer key. -/
structure ParsedTemplate where
  bubbles : List Bubble
  pageDims : ℚ × ℚ
  answers : List (String × String)
deriving DecidableEq

/-- `template.answerKey || template.answers || {}`. -/
def answersOf (t : Template) : List (String × String) :=
  match t.answerKey with
  | some a => a
  | none => t.answers.getD []

/-- The `FIELD_TYPES` preset table (image-worker.js, lines 37-54):
bubble-value list and layout direction of each preset. -/
def FIELD_TYPES (ft : String) : Option (List String × String) :=
  if ft = "QTYPE_INT" then
    some (["0", "1", "2", "3", "4", "5", "6", "7", "8", "9"], "vertical")
  else if ft = "QTYPE_INT_FROM_1" then
    some (["1", "2", "3", "4", "5", "6", "7", "8", "9", "0"], "vertical")
  else if ft = "QTYPE_MCQ4" then some (["A", "B", "C", "D"], "horizontal")
  else if ft = "QTYPE_MCQ5" then some (["A", "B", "C", "D", "E"], "horizontal")
  else none

/-- The QR-block test of `parseFieldBlocks`: such blocks are skipped
when generating bubbles. -/
def isQRBlock (blockName : String) (fb : FieldBlock) : Bool :=
  (fb.fieldType == some "QTYPE_CUSTOM") || (blockName == "QR_Code") ||
    containsStr ['Q', 'R'] blockName.data

/-- `blockConfig = { ...fieldBlock, ...FIELD_TYPES[fieldBlock.fieldType] }`:
when the block declares a known preset, the preset's `bubbleValues` and
`direction` are spread *over* the block's own configuration. -/
def applyPreset (fb : FieldBlock) : FieldBlock :=
  match fb.fieldType with
  | some ft =>
    match FIELD_TYPES ft with
    | some pr => { fb with bubbleValues := some pr.1, direction := some pr.2 }
    | none => fb
  | none => fb

/-- `parseFields`: expand every token of a field-label list, in order,
propagating the first expansion error. -/
def parseFields : List String → Except TErr (List String)
  | [] => .ok []
  | s :: rest =>
    match parseFieldStringL s.data with
    | .error e => .error e
    | .ok xs =>
      match parseFields rest with
      | .error e => .error e
      | .ok ys => .ok (xs.map (fun cs => String.mk cs) ++ ys)

/-- The inner bubble loop of the grid generator: one bubble per bubble
value, advancing along the block direction by `bubblesGap`. -/
def genRow (dir : String) (bd : ℚ × ℚ) (bGap : ℚ) (label : String) :
    List String → ℚ × ℚ → List Bubble
  | [], _ => []
  | v :: vs, pt =>
    { x := jsRound pt.1, y := jsRound pt.2, width := bd.1, height := bd.2,
      fieldLabel := label, fieldValue := v } ::
      genRow dir bd bGap label vs
        (if dir = "vertical" then (pt.1, pt.2 + bGap) else (pt.1 + bGap, pt.2))

/-- The outer label loop of the grid generator: one row of bubbles per
field label, the lead point advancing across the direction by
`labelsGap`. -/
def genBlock (dir : String) (bd : ℚ × ℚ) (bGap lGap : ℚ) (vals : List String) :
    List String → ℚ × ℚ → List Bubble
  | [], _ => []
  | ℓ :: ls, lead =>
    genRow dir bd bGap ℓ vals lead ++
      genBlock dir bd bGap lGap vals ls
        (if dir = "vertical" then (lead.1 + lGap, lead.2) else (lead.1, lead.2 + lGap))

/-- Bubbles of one field block (image-worker.js, lines 104-171): QR
blocks contribute nothing; otherwise the preset-merged configuration is
destructured with its defaults, the labels are expanded, and the grid is
generated. -/
def blockBubbles (gd : ℚ × ℚ) (blockName : String) (fb : FieldBlock) :
    Except TErr (List Bubble) :=
  if isQRBlock blockName fb then .ok []
  else
    match parseFields ((applyPreset fb).fieldLabels.getD []) with
    | .error e => .error e
    | .ok labels =>
      .ok (genBlock ((applyPreset fb).direction.getD "vertical")
        ((applyPreset fb).bubbleDimensions.getD gd) ((applyPreset fb).bubblesGap.getD 40)
        ((applyPreset fb).labelsGap.getD 60) ((applyPreset fb).bubbleValues.getD [])
        labels ((applyPreset fb).origin.getD (0, 0)))

/-- Bubbles of all field blocks, in block order, propagating the first
error. -/
def blocksBubbles (gd : ℚ × ℚ) : List (String × FieldBlock) → Except TErr (List Bubble)
  | [] => .ok []
  | (n, fb) :: rest =>
    match blockBubbles gd n fb with
    | .error e => .error e
    | .ok bs =>
      match blocksBubbles gd rest with
      | .error e => .error e
      | .ok rs => .ok (bs ++ rs)

/-- Embedding of `parseFieldBlocks(template)` (image-worker.js, lines
98-178): `null` (here `Option.none`) when the `fieldBlocks` key is
absent, otherwise the canonical bubble list with this format's page
dimensions and answer key (or the propagated expansion error). -/
def parseFieldBlocks (t : Template) : Except TErr (Option ParsedTemplate) :=
  match t.fieldBlocks with
  | none => .ok none
  | some blocks =>
    match blocksBubbles (t.bubbleDimensions.getD (32, 32)) blocks with
    | .error e => .error e
    | .ok bs => .ok (some ⟨bs, t.pageDimensions.getD (850, 1202), answersOf t⟩)

/-- Option loop of one region row (`for optValue of optionValues`). -/
def genRegionRow (diam : ℚ) (label : String) (oGap : ℚ) :
    List String → ℚ → ℚ → List Bubble
  | [], _, _ => []
  | v :: vs, xPos, yPos =>
    { x := jsRound xPos, y := jsRound yPos, width := diam, height := diam,
      fieldLabel := label, fieldValue := v } ::
      genRegionRow diam label oGap vs (xPos + oGap) yPos

/-- Question loop of a region (`for qNum = start..end`), labels are the
decimal question numbers. -/
def genRegionRows (diam qGap oGap : ℚ) (vals : List String) (ox : ℚ) :
    List ℕ → ℚ → List Bubble
  | [], _ => []
  | q :: qs, yPos =>
    genRegionRow diam (String.mk (natRepr q)) oGap vals ox yPos ++
      genRegionRows diam qGap oGap vals ox qs (yPos + qGap)

/-- Bubbles of one region, with the region-form defaults. -/
def regionBubbles (diam : ℚ) (r : Region) : List Bubble :=
  genRegionRows diam (r.questionsGap.getD 65) (r.optionsGap.getD 80)
    (r.optionValues.getD ["A", "B", "C", "D"]) r.originX
    (List.range' r.qStart (r.qEnd + 1 - r.qStart)) r.originY

/-- Embedding of `parseRegionsFormat(template)` (image-worker.js, lines
183-221): `null` when `layout` or `layout.regions` is missing, otherwise
the region-generated bubble list (total on well-typed regions). -/
def parseRegionsFormat (t : Template) : Option ParsedTemplate :=
  match t.layout with
  | none => none
  | some l =>
    match l.regions with
    | none => none
    | some rs =>
      some ⟨(rs.map (regionBubbles (t.bubbleDiameter.getD 32))).flatten,
        (t.pageWidth.getD 850, t.pageHeight.getD 1202), answersOf t⟩

/-- Embedding of `parseTemplate(template)` (image-worker.js, lines
227-241): the fieldBlocks form is probed first, then the region form,
and the template-format error is thrown when both probes return null. -/
def parseTemplate (t : Template) : Except TErr ParsedTemplate :=
  match parseFieldBlocks t with
  | .error e => .error e
  | .ok (some r) => .ok r
  | .ok none =>
    match parseRegionsFormat t with
    | some r => .ok r
    | none => .error .formatError

/-- The field block of the C6 counterexample: an authored `fieldBlocks`
block whose label list holds the invalid range token `"q5..1"`. -/
def exBadFieldBlock : FieldBlock :=
  { fieldType := none, origin := none, bubbleDimensions := none,
    bubbleValues := some ["A"], bubblesGap := none, direction := none,
    fieldLabels := some ["q5..1"], labelsGap := none }

/-- The template of the C6 counterexample: the `fieldBlocks` key is
present, `layout.regions` is not. -/
def exBadTemplate : Template :=
  { fieldBlocks := some [("Block1", exBadFieldBlock)], pageDimensions := none,
    bubbleDimensions := none, layout := none, answerKey := none, answers := none,
    pageWidth := none, pageHeight := none, bubbleDiameter := none }

/-- The field block of the C10 witness: a preset `QTYPE_MCQ4` block that
also authors conflicting `bubbleValues` and `direction`. -/
def exPresetBlock : FieldBlock :=
  { fieldType := some "QTYPE_MCQ4", origin := some (10, 20), bubbleDimensions := none,
    bubbleValues := some ["X", "Y"], bubblesGap := none, direction := some "vertical",
    fieldLabels := some ["q1"], labelsGap := none }

/-- Clamped ROI width of a bubble (`roi.x = max(0, x)`, then the width
is cut down when `roi.x + roi.width` overruns the image). -/
def roiW (imgW : ℚ) (b : Bubble) : ℚ :=
  if max 0 b.x + b.width > imgW then imgW - max 0 b.x else b.width

/-- Clamped ROI height of a bubble. -/
def roiH (imgH : ℚ) (b : Bubble) : ℚ :=
  if max 0 b.y + b.height > imgH then imgH - max 0 b.y else b.height

/-- A bubble's ROI is usable (the code skips bubbles whose clamped ROI
has non-positive width or height). -/
def roiOk (imgW imgH : ℚ) (b : Bubble) : Bool :=
  decide (0 < roiW imgW b) && decide (0 < roiH imgH b)

/-- Insertion-ordered deduplication with an explicit seen-set (the JS
`Set` of field labels iterates in first-insertion order). -/
def firstDedupAux (seen : List String) : List String → List String
  | [] => []
  | x :: xs =>
    if x ∈ seen then firstDedupAux seen xs else x :: firstDedupAux (x :: seen) xs

/-- The distinct field labels of a list, in first-occurrence order. -/
def firstDedup (l : List String) : List String := firstDedupAux [] l

/-- The strip of a field label: the bubbles grouped under that label
(`stripData[fieldLabel]`, in bubble order). -/
def stripOf (kept : List Bubble) (ℓ : String) : List Bubble :=
  kept.filter (fun b => decide (b.fieldLabel = ℓ))

/-- The mean intensities of one strip. -/
def stripMeans (kept : List Bubble) (meanOf : Bubble → ℚ) (ℓ : String) : List ℚ :=
  (stripOf kept ℓ).map meanOf

/-- Population variance of a list of means (strips are never empty when
this is evaluated by the pipeline). -/
def varianceOf (xs : List ℚ) : ℚ :=
  ((xs.map (fun v => (v - xs.sum / xs.length) * (v - xs.sum / xs.length))).sum) / xs.length

/-- The strip labels, in `stripData` insertion order. -/
def stripLabels (kept : List Bubble) : List String :=
  firstDedup (kept.map (fun b => b.fieldLabel))

/-- `allStdValues`: each strip's standard deviation of means, where
`sqrtA` abstracts `Math.sqrt` (no claim depends on its values). -/
def detectStds (kept : List Bubble) (meanOf : Bubble → ℚ) (sqrtA : ℚ → ℚ) : List ℚ :=
  (stripLabels kept).map (fun ℓ => sqrtA (varianceOf (stripMeans kept meanOf ℓ)))

/-- The global threshold over all kept bubbles' means, looseness 4. -/
def globalThrOf (kept : List Bubble) (meanOf : Bubble → ℚ) : ℚ :=
  calculateGlobalThreshold (kept.map meanOf) 4

/-- The global standard-deviation threshold, looseness 1, over all
strips' standard deviations. -/
def globalStdThrOf (kept : List Bubble) (meanOf : Bubble → ℚ) (sqrtA : ℚ → ℚ) : ℚ :=
  calculateGlobalThreshold (detectStds kept meanOf sqrtA) 1

/-- A strip is classified "no-outliers" when its standard deviation lies
below the global standard-deviation threshold. -/
def noOutliersFlag (kept : List Bubble) (meanOf : Bubble → ℚ) (sqrtA : ℚ → ℚ)
    (ℓ : String) : Bool :=
  decide (sqrtA (varianceOf (stripMeans kept meanOf ℓ)) < globalStdThrOf kept meanOf sqrtA)

/-- The strip's local threshold as the detection loop computes it. -/
def detectLocalThr (kept : List Bubble) (meanOf : Bubble → ℚ) (sqrtA : ℚ → ℚ)
    (ℓ : String) : ℚ :=
  calculateLocalThreshold (stripMeans kept meanOf ℓ) (globalThrOf kept meanOf)
    (noOutliersFlag kept meanOf sqrtA ℓ)

/-- Lookup in the `answers` object (modelled as an association list). -/
def lookupA : List (String × List String) → String → Option (List String)
  | [], _ => none
  | (k, vs) :: rest, k2 => if k = k2 then some vs else lookupA rest k2

/-- `answers[label].push(value)`: append a value to an existing entry
(every pushed label has been initialized, so the no-entry case never
arises; it is a no-op). -/
def pushAssoc : List (String × List String) → String → String → List (String × List String)
  | [], _, _ => []
  | (k, vs) :: rest, k2, v =>
    if k = k2 then (k, vs ++ [v]) :: rest else (k, vs) :: pushAssoc rest k2 v

/-- The inner detection loop over one strip: a bubble is filled iff its
mean is strictly below the strip's local threshold
(`localThreshold > bubble.meanValue`), and its value is then pushed onto
its field's entry. -/
def markStrip (meanOf : Bubble → ℚ) (t : ℚ) (strip : List Bubble)
    (acc : List (String × List String)) : List (String × List String) :=
  strip.foldl
    (fun acc2 b => if meanOf b < t then pushAssoc acc2 b.fieldLabel b.fieldValue else acc2) acc

/-- Embedding of the answer-detection phase of `detectAndParseAnswers`
(image-worker.js, lines 1441-1562, QR blocks absent): every field label
of the template's bubble list is initialized with an empty selection;
bubbles with degenerate ROIs are skipped; the remaining bubbles are
grouped into strips, each strip gets its local threshold, and each
filled bubble's value is pushed onto its field's entry.  `meanOf`
abstracts the mean grayscale value `cv.mean(grayRoi)[0]` of a bubble's
ROI in the rectified sheet. -/
def detectAnswers (imgW imgH : ℚ) (meanOf : Bubble → ℚ) (sqrtA : ℚ → ℚ)
    (bubbles : List Bubble) : List (String × List String) :=
  (stripLabels (bubbles.filter (roiOk imgW imgH))).foldl
    (fun acc ℓ => markStrip meanOf
      (detectLocalThr (bubbles.filter (roiOk imgW imgH)) meanOf sqrtA ℓ)
      (stripOf (bubbles.filter (roiOk imgW imgH)) ℓ) acc)
    ((firstDedup (bubbles.map (fun b => b.fieldLabel))).map (fun ℓ => (ℓ, ([] : List String))))

/-- The sheet of the C3 witness: one field `q1` with two bubbles, A and
B. -/
def exBubbles : List Bubble :=
  [{ x := 0, y := 0, width := 10, height := 10, fieldLabel := "q1", fieldValue := "A" },
    { x := 20, y := 0, width := 10, height := 10, fieldLabel := "q1", fieldValue := "B" }]

/-- The mean-intensity oracle of the C3 witness: bubble A is dark (10),
bubble B is blank (200). -/
def exMeanOf : Bubble → ℚ := fun b => if b.fieldValue = "A" then 10 else 200

theorem gapScan_nil (sorted : List ℚ) (ls : ℕ) (st : ℚ × ℚ) :
    gapScan sorted ls st [] = st := rfl

theorem gapScan_cons (sorted : List ℚ) (ls : ℕ) (st : ℚ × ℚ) (i : ℕ) (idxs : List ℕ) :
    gapScan sorted ls st (i :: idxs) = gapScan sorted ls (gapStep sorted ls st i) idxs := rfl

/-- Behaviour of the largest-gap scan loop: either no jump ever beats the
running maximum and the state is unchanged, or the final state holds a
maximal jump together with its midpoint. -/
theorem gapScan_spec (sorted : List ℚ) (ls : ℕ) (idxs : List ℕ) :
    ∀ m t : ℚ,
      (gapScan sorted ls (m, t) idxs = (m, t) ∧ ∀ i ∈ idxs, jumpAt sorted ls i ≤ m) ∨
      (∃ i ∈ idxs, gapScan sorted ls (m, t) idxs = (jumpAt sorted ls i, midAt sorted ls i) ∧
        m < jumpAt sorted ls i ∧ ∀ j ∈ idxs, jumpAt sorted ls j ≤ jumpAt sorted ls i) := by
  induction idxs with
  | nil =>
    intro m t
    left
    exact ⟨rfl, fun i hi => absurd hi (List.not_mem_nil i)⟩
  | cons i0 is ih =>
    intro m t
    by_cases h : m < jumpAt sorted ls i0
    · have hstep : gapScan sorted ls (m, t) (i0 :: is) =
          gapScan sorted ls (jumpAt sorted ls i0, midAt sorted ls i0) is := by
        rw [gapScan_cons, gapStep, if_pos h]
      rcases ih (jumpAt sorted ls i0) (midAt sorted ls i0) with ⟨he, hall⟩ | ⟨i, hi, he, hlt, hall⟩
      · right
        refine ⟨i0, List.mem_cons_self _ _, by rw [hstep, he], h, ?_⟩
        intro j hj
        rcases List.mem_cons.mp hj with rfl | hj
        · exact le_refl _
        · exact hall j hj
      · right
        refine ⟨i, List.mem_cons_of_mem _ hi, by rw [hstep, he], lt_trans h hlt, ?_⟩
        intro j hj
        rcases List.mem_cons.mp hj with rfl | hj
        · exact le_of_lt hlt
        · exact hall j hj
    · have hstep : gapScan sorted ls (m, t) (i0 :: is) = gapScan sorted ls (m, t) is := by
        rw [gapScan_cons, gapStep, if_neg h]
      rcases ih m t with ⟨he, hall⟩ | ⟨i, hi, he, hlt, hall⟩
      · left
        refine ⟨by rw [hstep, he], ?_⟩
        intro j hj
        rcases List.mem_cons.mp hj with rfl | hj
        · exact le_of_not_lt h
        · exact hall j hj
      · right
        refine ⟨i, List.mem_cons_of_mem _ hi, by rw [hstep, he], hlt, ?_⟩
        intro j hj
        rcases List.mem_cons.mp hj with rfl | hj
        · exact le_trans (le_of_not_lt h) (le_of_lt hlt)
        · exact hall j hj

theorem sortedVals_length (values : List ℚ) :
    (sortedVals values).length = values.length :=
  (List.perm_insertionSort (fun a b => a ≤ b) values).length_eq

/-- C1 (amended): for a non-empty list of bubble means and looseness `L`,
`calculateGlobalThreshold` sorts the means ascending and scans with
half-window `⌊(L + 1) / 2⌋` for the largest value of
`sorted[i + half] - sorted[i - half]`; if some jump exceeds the
minimum-jump floor of 25 the result is the midpoint of a largest such
gap, otherwise it is the full intensity 255 (for lists of fewer than 3
values, no scan runs and the maximum observed mean is returned). -/
theorem calculateGlobalThreshold_characterization (values : List ℚ) (L : ℕ)
    (hne : values ≠ []) :
    (values.length < 3 → calculateGlobalThreshold values L = listMax values) ∧
    (3 ≤ values.length →
      ((∀ i ∈ scanIdxs values.length ((L + 1) / 2),
          jumpAt (sortedVals values) ((L + 1) / 2) i ≤ 25) →
        calculateGlobalThreshold values L = 255) ∧
      (∀ i₀ ∈ scanIdxs values.length ((L + 1) / 2),
        25 < jumpAt (sortedVals values) ((L + 1) / 2) i₀ →
        ∃ i ∈ scanIdxs values.length ((L + 1) / 2),
          calculateGlobalThreshold values L = midAt (sortedVals values) ((L + 1) / 2) i ∧
          25 < jumpAt (sortedVals values) ((L + 1) / 2) i ∧
          ∀ j ∈ scanIdxs values.length ((L + 1) / 2),
            jumpAt (sortedVals values) ((L + 1) / 2) j ≤
              jumpAt (sortedVals values) ((L + 1) / 2) i)) := by
  have h0 : ¬ values.length = 0 := fun h => hne (List.length_eq_zero.mp h)
  constructor
  · intro h3
    rw [calculateGlobalThreshold, if_neg h0, if_pos h3]
  · intro h3
    have hn3 : ¬ values.length < 3 := not_lt.mpr h3
    have hunf : calculateGlobalThreshold values L =
        (gapScan (sortedVals values) ((L + 1) / 2) (25, 255)
          (scanIdxs values.length ((L + 1) / 2))).2 := by
      rw [calculateGlobalThreshold, if_neg h0, if_neg hn3]
      simp only [sortedVals_length]
    rcases gapScan_spec (sortedVals values) ((L + 1) / 2)
        (scanIdxs values.length ((L + 1) / 2)) 25 255 with ⟨he, hall⟩ | ⟨i, hi, he, hlt, hall⟩
    · constructor
      · intro _
        rw [hunf, he]
      · intro i₀ hi₀ hgt
        exact absurd (hall i₀ hi₀) (not_le.mpr hgt)
    · constructor
      · intro hle
        exact absurd (hle i hi) (not_le.mpr hlt)
      · intro i₀ hi₀ hgt
        exact ⟨i, hi, by rw [hunf, he], hlt, hall⟩

/-- Witness for C1 at means `[0,0,0,100,100,100]`, looseness 4: the jump
at index 2 is 100 > 25, and the returned threshold is the midpoint 50. -/
theorem calculateGlobalThreshold_characterization_witness :
    calculateGlobalThreshold [0, 0, 0, 100, 100, 100] 4 = 50 := by
  have hs : sortedVals [0, 0, 0, 100, 100, 100] = [0, 0, 0, 100, 100, 100] := by
    norm_num [sortedVals, List.insertionSort, List.orderedInsert]
  have hidx : scanIdxs (6 : ℕ) ((4 + 1) / 2) = [2, 3] := by
    norm_num [scanIdxs, List.range']
  have h := (calculateGlobalThreshold_characterization [0, 0, 0, 100, 100, 100] 4
    (by simp)).2 (by norm_num)
  obtain ⟨i, hi, heq, hgt, hall⟩ := h.2 2
    (by rw [show ([0, 0, 0, (100:ℚ), 100, 100]).length = 6 from by norm_num, hidx]; norm_num)
    (by rw [hs]; norm_num [jumpAt, List.getD])
  rw [heq, hs]
  rw [show ([0, 0, 0, (100:ℚ), 100, 100]).length = 6 from by norm_num, hidx] at hi
  rcases List.mem_cons.mp hi with rfl | hi
  · norm_num [midAt, jumpAt, List.getD]
  · rcases List.mem_cons.mp hi with rfl | hi
    · norm_num [midAt, jumpAt, List.getD]
    · exact absurd hi (List.not_mem_nil i)

/-- Counterexample to C1 as stated: on means `[0,0,0,100,100,100]` with
looseness 4 the claimed procedure (half-window `⌈(L+1)/2⌉ = 3`, default
threshold = maximum observed mean) yields 100, while the code yields the
gap midpoint 50 found with half-window `⌊(L+1)/2⌋ = 2` — and on
`[0,100,200]` the code defaults to 255, not to the claimed maximum 200. -/
theorem claimedGlobalThreshold_cex :
    claimedGlobalThreshold [0, 0, 0, 100, 100, 100] 4 = 100 ∧
    calculateGlobalThreshold [0, 0, 0, 100, 100, 100] 4 = 50 ∧
    calculateGlobalThreshold [0, 100, 200] 4 = 255 ∧
    listMax [0, 100, 200] = 200 := by
  refine ⟨?_, ?_, ?_, by norm_num [listMax]⟩
  · have hs : sortedVals [0, 0, 0, 100, 100, 100] = [0, 0, 0, 100, 100, 100] := by
      norm_num [sortedVals, List.insertionSort, List.orderedInsert]
    rw [claimedGlobalThreshold, hs]
    norm_num [gapScan, gapStep, jumpAt, midAt, scanIdxs, listMax, List.range', List.getD]
  · have hs : sortedVals [0, 0, 0, 100, 100, 100] = [0, 0, 0, 100, 100, 100] := by
      norm_num [sortedVals, List.insertionSort, List.orderedInsert]
    rw [calculateGlobalThreshold, if_neg (by norm_num), if_neg (by norm_num), hs]
    norm_num [gapScan, gapStep, jumpAt, midAt, scanIdxs, List.range', List.getD]
  · have hs : sortedVals [0, 100, 200] = [0, 100, 200] := by
      norm_num [sortedVals, List.insertionSort, List.orderedInsert]
    rw [calculateGlobalThreshold, if_neg (by norm_num), if_neg (by norm_num), hs]
    norm_num [gapScan, gapStep, jumpAt, midAt, scanIdxs, List.range', List.getD]

/-- C4: on the bubble means `[10,10,11,9,200,201,199,200]` with looseness
4 the computed global threshold (104) lies strictly between 11 and 199. -/
theorem calculateGlobalThreshold_between :
    11 < calculateGlobalThreshold [10, 10, 11, 9, 200, 201, 199, 200] 4 ∧
    calculateGlobalThreshold [10, 10, 11, 9, 200, 201, 199, 200] 4 < 199 := by
  have h : calculateGlobalThreshold [10, 10, 11, 9, 200, 201, 199, 200] 4 = 104 := by
    have hs : sortedVals [10, 10, 11, 9, 200, 201, 199, 200] =
        [9, 10, 10, 11, 199, 200, 200, 201] := by
      norm_num [sortedVals, List.insertionSort, List.orderedInsert]
    rw [calculateGlobalThreshold, if_neg (by norm_num), if_neg (by norm_num), hs]
    norm_num [gapScan, gapStep, jumpAt, midAt, scanIdxs, List.range', List.getD]
  rw [h]
  norm_num

/-- C2 (amended): for a strip of at least 3 bubble means,
`calculateLocalThreshold` scans the sorted means with the two-wide window
`sorted[i + 1] - sorted[i - 1]` (spanning two neighbouring gaps, not a
single immediate-neighbour gap); when some window jump reaches the
minimum-jump floor plus the confidence surplus (25 + 5 = 30) the result
is the midpoint `sorted[i - 1] + jump/2` of a largest window jump; when
every window jump is below 30 and the strip is classified no-outliers
the result falls back to the global threshold; when every window jump is
below 30 but the strip has an outlier, the low-confidence local value is
kept (255 when no window jump exceeded 25, otherwise the midpoint of a
largest window jump). -/
theorem calculateLocalThreshold_characterization (strip : List ℚ) (g : ℚ) (no : Bool)
    (h3 : 3 ≤ strip.length) :
    ((∃ i ∈ scanIdxs strip.length 1, 30 ≤ jumpAt (sortedVals strip) 1 i) →
      ∃ i ∈ scanIdxs strip.length 1,
        calculateLocalThreshold strip g no = midAt (sortedVals strip) 1 i ∧
        ∀ j ∈ scanIdxs strip.length 1,
          jumpAt (sortedVals strip) 1 j ≤ jumpAt (sortedVals strip) 1 i) ∧
    ((∀ i ∈ scanIdxs strip.length 1, jumpAt (sortedVals strip) 1 i < 30) →
      (no = true → calculateLocalThreshold strip g no = g) ∧
      (no = false →
        ((∀ i ∈ scanIdxs strip.length 1, jumpAt (sortedVals strip) 1 i ≤ 25) →
          calculateLocalThreshold strip g no = 255) ∧
        ((∃ i ∈ scanIdxs strip.length 1, 25 < jumpAt (sortedVals strip) 1 i) →
          ∃ i ∈ scanIdxs strip.length 1,
            calculateLocalThreshold strip g no = midAt (sortedVals strip) 1 i ∧
            ∀ j ∈ scanIdxs strip.length 1,
              jumpAt (sortedVals strip) 1 j ≤ jumpAt (sortedVals strip) 1 i))) := by
  have h0 : ¬ strip.length = 0 := by omega
  have hn3 : ¬ strip.length < 3 := not_lt.mpr h3
  have hunf : calculateLocalThreshold strip g no =
      (if (gapScan (sortedVals strip) 1 (25, 255) (scanIdxs strip.length 1)).1 < 30 then
        (if no then g
          else (gapScan (sortedVals strip) 1 (25, 255) (scanIdxs strip.length 1)).2)
        else (gapScan (sortedVals strip) 1 (25, 255) (scanIdxs strip.length 1)).2) := by
    rw [calculateLocalThreshold, if_neg h0, if_neg hn3]
    simp only [sortedVals_length]
  rcases gapScan_spec (sortedVals strip) 1 (scanIdxs strip.length 1) 25 255 with
    ⟨he, hall⟩ | ⟨i, hi, he, hlt, hall⟩
  · constructor
    · intro ⟨i₀, hi₀, hge⟩
      have := hall i₀ hi₀
      linarith
    · intro _
      refine ⟨?_, ?_⟩
      · intro hno
        rw [hunf, he, hno]
        norm_num
      · intro hno
        refine ⟨?_, ?_⟩
        · intro _
          rw [hunf, he, hno]
          norm_num
        · intro ⟨i₀, hi₀, hgt⟩
          have := hall i₀ hi₀
          linarith
  · constructor
    · intro ⟨i₀, hi₀, hge⟩
      have h30 : (30 : ℚ) ≤ jumpAt (sortedVals strip) 1 i := le_trans hge (hall i₀ hi₀)
      refine ⟨i, hi, ?_, hall⟩
      rw [hunf, he]
      rw [if_neg (by simpa using not_lt.mpr h30)]
    · intro hsmall
      have hlt30 : jumpAt (sortedVals strip) 1 i < 30 := hsmall i hi
      refine ⟨?_, ?_⟩
      · intro hno
        rw [hunf, he, if_pos (by simpa using hlt30), hno]
        norm_num
      · intro hno
        refine ⟨?_, fun _ => ⟨i, hi, ?_, hall⟩⟩
        · intro hle
          have := hle i hi
          linarith
        · rw [hunf, he, hno]
          by_cases h30 : jumpAt (sortedVals strip) 1 i < 30
          · rw [if_pos (by simpa using h30)]
            norm_num
          · rw [if_neg (by simpa using h30)]

/-- Witness for C2 at the strip `[0,60,100,200]` (global threshold 77,
outlier present): the largest two-wide window jump is 140 ≥ 30 at sorted
index 2, and the local threshold is its midpoint 130. -/
theorem calculateLocalThreshold_characterization_witness :
    calculateLocalThreshold [0, 60, 100, 200] 77 false = 130 := by
  have hs : sortedVals [0, 60, 100, 200] = [0, 60, 100, 200] := by
    norm_num [sortedVals, List.insertionSort, List.orderedInsert]
  have hidx : scanIdxs (4 : ℕ) 1 = [1, 2] := by
    norm_num [scanIdxs, List.range']
  have hlen : ([0, 60, 100, (200:ℚ)]).length = 4 := by norm_num
  have h := (calculateLocalThreshold_characterization [0, 60, 100, 200] 77 false
    (by norm_num)).1
  obtain ⟨i, hi, heq, hall⟩ := h ⟨2, by rw [hlen, hidx]; norm_num,
    by rw [hs]; norm_num [jumpAt, List.getD]⟩
  rw [hlen, hidx] at hi
  have h2 := hall 2 (by rw [hlen, hidx]; norm_num)
  rcases List.mem_cons.mp hi with rfl | hi
  · rw [hs] at h2
    norm_num [jumpAt, List.getD] at h2
  · rcases List.mem_cons.mp hi with rfl | hi
    · rw [heq, hs]
      norm_num [midAt, jumpAt, List.getD]
    · exact absurd hi (List.not_mem_nil i)

/-- Counterexample to C2 as stated: on the strip `[0,60,100,200]` the
claimed procedure (largest jump between immediate neighbours, here the
gap 100→200, midpoint 150) disagrees with the code, which scans the
two-wide window `sorted[i+1] - sorted[i-1]` and returns 130. -/
theorem claimedLocalThreshold_cex :
    claimedLocalThreshold [0, 60, 100, 200] 77 false = 150 ∧
    calculateLocalThreshold [0, 60, 100, 200] 77 false = 130 := by
  constructor
  · have hs : sortedVals [0, 60, 100, 200] = [0, 60, 100, 200] := by
      norm_num [sortedVals, List.insertionSort, List.orderedInsert]
    rw [claimedLocalThreshold, hs]
    norm_num [List.range', List.getD]
  · have hs : sortedVals [0, 60, 100, 200] = [0, 60, 100, 200] := by
      norm_num [sortedVals, List.insertionSort, List.orderedInsert]
    rw [calculateLocalThreshold, if_neg (by norm_num), if_neg (by norm_num), hs]
    norm_num [gapScan, gapStep, jumpAt, midAt, scanIdxs, List.range', List.getD]

theorem containsStr_cons (pat : List Char) (c : Char) (cs : List Char) :
    containsStr pat (c :: cs) = (strStartsWith pat (c :: cs) || containsStr pat cs) := rfl

theorem containsStr_append_dotdot (xs ys : List Char) :
    containsStr ['.', '.'] (xs ++ '.' :: '.' :: ys) = true := by
  induction xs with
  | nil => simp [containsStr, strStartsWith]
  | cons c cs ih => simp [containsStr_cons, ih]

theorem takeWhile_append_of (P : Char → Bool) (xs : List Char) (y : Char) (ys : List Char)
    (hx : ∀ c ∈ xs, P c = true) (hy : P y = false) :
    (xs ++ y :: ys).takeWhile P = xs := by
  induction xs with
  | nil => simp [List.takeWhile, hy]
  | cons c cs ih =>
    have hc : P c = true := hx c (List.mem_cons_self _ _)
    have ih' := ih (fun d hd => hx d (List.mem_cons_of_mem _ hd))
    simp [List.takeWhile_cons, hc, ih']

theorem dropWhile_append_of (P : Char → Bool) (xs : List Char) (y : Char) (ys : List Char)
    (hx : ∀ c ∈ xs, P c = true) (hy : P y = false) :
    (xs ++ y :: ys).dropWhile P = y :: ys := by
  induction xs with
  | nil => simp [List.dropWhile, hy]
  | cons c cs ih =>
    have hc : P c = true := hx c (List.mem_cons_self _ _)
    have ih' := ih (fun d hd => hx d (List.mem_cons_of_mem _ hd))
    simp [List.dropWhile_cons, hc, ih']

/-- C5: for every range token `prefix ++ digits ++ ".." ++ digits` (the
prefix non-empty and digit-free, the two digit runs denoting `a` and
`b`), expansion yields exactly `b - a + 1` labels `prefix ++ i` for
`i = a, …, b` in order when `a < b`, and fails with the range validation
error when `a ≥ b`. -/
theorem parseFieldString_range (p da db : List Char) (a b : ℕ)
    (hp : p ≠ []) (hpd : ∀ c ∈ p, c.isDigit = false)
    (hda : da ≠ []) (hdad : ∀ c ∈ da, c.isDigit = true) (hA : natFromDigits da = a)
    (hdb : db ≠ []) (hdbd : ∀ c ∈ db, c.isDigit = true) (hB : natFromDigits db = b) :
    (a < b →
      parseFieldStringL (p ++ da ++ '.' :: '.' :: db) =
        .ok ((List.range' a (b - a + 1)).map (fun i => p ++ natRepr i)) ∧
      ((List.range' a (b - a + 1)).map (fun i => p ++ natRepr i)).length = b - a + 1) ∧
    (b ≤ a →
      parseFieldStringL (p ++ da ++ '.' :: '.' :: db) =
        .error (.invalidRange (p ++ da ++ '.' :: '.' :: db))) := by
  obtain ⟨d, da', rfl⟩ := List.exists_cons_of_ne_nil hda
  obtain ⟨e, db', rfl⟩ := List.exists_cons_of_ne_nil hdb
  have hin : containsStr ['.', '.'] (p ++ (d :: da') ++ '.' :: '.' :: (e :: db')) = true := by
    have h := containsStr_append_dotdot (p ++ (d :: da')) (e :: db')
    simpa [List.append_assoc] using h
  have hshape : p ++ (d :: da') ++ '.' :: '.' :: (e :: db') =
      p ++ d :: (da' ++ '.' :: '.' :: (e :: db')) := by
    simp [List.append_assoc]
  have htw : (p ++ (d :: da') ++ '.' :: '.' :: (e :: db')).takeWhile
      (fun c => !c.isDigit) = p := by
    rw [hshape]
    exact takeWhile_append_of _ p d _ (fun c hc => by simp [hpd c hc])
      (by simp [hdad d (List.mem_cons_self _ _)])
  have hdw : (p ++ (d :: da') ++ '.' :: '.' :: (e :: db')).dropWhile
      (fun c => !c.isDigit) = d :: (da' ++ '.' :: '.' :: (e :: db')) := by
    rw [hshape]
    exact dropWhile_append_of _ p d _ (fun c hc => by simp [hpd c hc])
      (by simp [hdad d (List.mem_cons_self _ _)])
  have hshape2 : d :: (da' ++ '.' :: '.' :: (e :: db')) =
      (d :: da') ++ '.' :: '.' :: (e :: db') := by simp
  have htw2 : (d :: (da' ++ '.' :: '.' :: (e :: db'))).takeWhile Char.isDigit = d :: da' := by
    rw [hshape2]
    exact takeWhile_append_of _ (d :: da') '.' _ hdad (by decide)
  have hdw2 : (d :: (da' ++ '.' :: '.' :: (e :: db'))).dropWhile Char.isDigit =
      '.' :: '.' :: (e :: db') := by
    rw [hshape2]
    exact dropWhile_append_of _ (d :: da') '.' _ hdad (by decide)
  have hall : (e :: db').all Char.isDigit = true := List.all_eq_true.mpr hdbd
  have hunf : parseFieldStringL (p ++ (d :: da') ++ '.' :: '.' :: (e :: db')) =
      (if b ≤ a then .error (.invalidRange (p ++ (d :: da') ++ '.' :: '.' :: (e :: db')))
        else .ok ((List.range' a (b - a + 1)).map (fun i => p ++ natRepr i))) := by
    rw [parseFieldStringL, if_pos hin]
    simp only [htw, hdw, htw2, hdw2]
    rw [if_neg hp, if_neg (by simp)]
    simp only [List.cons_ne_nil, if_neg (by simp : ¬(e :: db') = []), hall, if_true, hA, hB]
    rfl
  constructor
  · intro hab
    refine ⟨?_, by simp⟩
    rw [hunf, if_neg (not_le.mpr hab)]
  · intro hba
    rw [hunf, if_pos hba]

/-- Witness for C5 at the token `"q1..3"`: expansion yields `q1, q2, q3`. -/
theorem parseFieldString_range_witness :
    parseFieldStringL ['q', '1', '.', '.', '3'] =
      .ok [['q', '1'], ['q', '2'], ['q', '3']] := by
  have h := (parseFieldString_range ['q'] ['1'] ['3'] 1 3
    (by simp) (by decide) (by simp) (by decide) (by decide)
    (by simp) (by decide) (by decide)).1 (by norm_num)
  have h1 := h.1
  rw [show (['q'] ++ ['1'] ++ '.' :: '.' :: ['3']) = ['q', '1', '.', '.', '3'] from rfl] at h1
  rw [h1]
  congr 1

/-- Behaviour of the boundary-candidate fold: either no contour is ever
accepted and the state is unchanged (every qualifying contour has area
at most the running maximum), or the final state holds a qualifying
contour of maximal area. -/
theorem boundaryFold_spec (imgArea : ℚ) (cs : List Contour) :
    ∀ (m : ℚ) (b : Option Contour),
      (cs.foldl (boundaryStep imgArea) (m, b) = (m, b) ∧
        ∀ c ∈ cs, c.vertices = 4 → imgArea * (1 / 10) < c.area → c.area ≤ m) ∨
      (∃ c ∈ cs, c.vertices = 4 ∧ imgArea * (1 / 10) < c.area ∧
        cs.foldl (boundaryStep imgArea) (m, b) = (c.area, some c) ∧ m < c.area ∧
        ∀ c' ∈ cs, c'.vertices = 4 → imgArea * (1 / 10) < c'.area → c'.area ≤ c.area) := by
  induction cs with
  | nil =>
    intro m b
    left
    exact ⟨rfl, fun c hc => absurd hc (List.not_mem_nil c)⟩
  | cons c0 cs ih =>
    intro m b
    by_cases h : c0.vertices = 4 ∧ m < c0.area ∧ imgArea * (1 / 10) < c0.area
    · have hstep : (c0 :: cs).foldl (boundaryStep imgArea) (m, b) =
          cs.foldl (boundaryStep imgArea) (c0.area, some c0) := by
        rw [List.foldl_cons, boundaryStep, if_pos h]
      rcases ih c0.area (some c0) with ⟨he, hall⟩ | ⟨c, hc, hv, ha, he, hlt, hall⟩
      · right
        refine ⟨c0, List.mem_cons_self _ _, h.1, h.2.2, by rw [hstep, he], h.2.1, ?_⟩
        intro c' hc' hv' ha'
        rcases List.mem_cons.mp hc' with rfl | hc'
        · exact le_refl _
        · exact hall c' hc' hv' ha'
      · right
        refine ⟨c, List.mem_cons_of_mem _ hc, hv, ha, by rw [hstep, he],
          lt_trans h.2.1 hlt, ?_⟩
        intro c' hc' hv' ha'
        rcases List.mem_cons.mp hc' with rfl | hc'
        · exact le_of_lt hlt
        · exact hall c' hc' hv' ha'
    · have hstep : (c0 :: cs).foldl (boundaryStep imgArea) (m, b) =
          cs.foldl (boundaryStep imgArea) (m, b) := by
        rw [List.foldl_cons, boundaryStep, if_neg h]
      have hc0 : c0.vertices = 4 → imgArea * (1 / 10) < c0.area → c0.area ≤ m := by
        intro hv ha
        by_contra hgt
        exact h ⟨hv, not_le.mp hgt, ha⟩
      rcases ih m b with ⟨he, hall⟩ | ⟨c, hc, hv, ha, he, hlt, hall⟩
      · left
        refine ⟨by rw [hstep, he], ?_⟩
        intro c' hc' hv' ha'
        rcases List.mem_cons.mp hc' with rfl | hc'
        · exact hc0 hv' ha'
        · exact hall c' hc' hv' ha'
      · right
        refine ⟨c, List.mem_cons_of_mem _ hc, hv, ha, by rw [hstep, he], hlt, ?_⟩
        intro c' hc' hv' ha'
        rcases List.mem_cons.mp hc' with rfl | hc'
        · exact le_trans (hc0 hv' ha') (le_of_lt hlt)
        · exact hall c' hc' hv' ha'

/-- C8: for a non-degenerate image, the contour strategy selects as sheet
boundary an external contour with exactly four polygon-approximation
vertices whose area exceeds 10% of the image area and is maximal among
all such contours; when no contour qualifies it fails with the
boundary-not-found error. -/
theorem findSheetBoundary_spec (imgArea : ℚ) (cs : List Contour) (h0 : 0 ≤ imgArea) :
    ((∀ c ∈ cs, ¬(c.vertices = 4 ∧ imgArea * (1 / 10) < c.area)) →
      findSheetBoundary imgArea cs = .error .boundaryNotFound) ∧
    (∀ c₀ ∈ cs, c₀.vertices = 4 → imgArea * (1 / 10) < c₀.area →
      ∃ c ∈ cs, findSheetBoundary imgArea cs = .ok c ∧
        c.vertices = 4 ∧ imgArea * (1 / 10) < c.area ∧
        ∀ c' ∈ cs, c'.vertices = 4 → imgArea * (1 / 10) < c'.area → c'.area ≤ c.area) := by
  rcases boundaryFold_spec imgArea cs 0 none with ⟨he, hall⟩ | ⟨c, hc, hv, ha, he, _, hall⟩
  · constructor
    · intro _
      rw [findSheetBoundary, he]
    · intro c₀ hc₀ hv₀ ha₀
      have hle := hall c₀ hc₀ hv₀ ha₀
      have : (0 : ℚ) < c₀.area := lt_of_le_of_lt (by positivity) ha₀
      linarith
  · constructor
    · intro hnone
      exact absurd ⟨hv, ha⟩ (hnone c hc)
    · intro c₀ hc₀ hv₀ ha₀
      exact ⟨c, hc, by rw [findSheetBoundary, he], hv, ha, hall⟩

/-- Witness for C8: among contours `(4,50), (3,90), (4,60)` in an image
of area 100, a qualifying quadrilateral exists and the selected boundary
is a qualifying quadrilateral of maximal area. -/
theorem findSheetBoundary_spec_witness :
    ∃ c ∈ [Contour.mk 4 50, Contour.mk 3 90, Contour.mk 4 60],
      findSheetBoundary 100 [Contour.mk 4 50, Contour.mk 3 90, Contour.mk 4 60] = .ok c ∧
      c.vertices = 4 ∧ (100 : ℚ) * (1 / 10) < c.area ∧
      ∀ c' ∈ [Contour.mk 4 50, Contour.mk 3 90, Contour.mk 4 60],
        c'.vertices = 4 → (100 : ℚ) * (1 / 10) < c'.area → c'.area ≤ c.area :=
  (findSheetBoundary_spec 100 [Contour.mk 4 50, Contour.mk 3 90, Contour.mk 4 60]
    (by norm_num)).2 (Contour.mk 4 50) (by simp) rfl (by norm_num)

theorem startBatch_eq_map {σ ε ρ : Type} (process : σ → Except ε ρ) (files : List σ) :
    startBatch process files = files.map (fun f => (f, process f)) := by
  have haux : ∀ (fs : List σ) (acc : List (σ × Except ε ρ)),
      fs.foldl (fun acc f => acc ++ [(f, process f)]) acc =
        acc ++ fs.map (fun f => (f, process f)) := by
    intro fs
    induction fs with
    | nil => intro acc; simp
    | cons f fs ih =>
      intro acc
      simp [List.foldl_cons, ih]
  simpa using haux files []

/-- C9: a batch yields exactly one result-or-error entry per submitted
sheet, in submission order; entry `i` is determined by file `i` alone
(its own success or failure), so one sheet's failure neither halts nor
alters the processing of the others. -/
theorem startBatch_spec {σ ε ρ : Type} (process : σ → Except ε ρ) (files : List σ) :
    (startBatch process files).length = files.length ∧
    ∀ i : ℕ, (startBatch process files)[i]? = (files[i]?).map (fun f => (f, process f)) := by
  rw [startBatch_eq_map]
  exact ⟨List.length_map _ _, fun i => List.getElem?_map _ _ _⟩

/-- C7 (amended): when no marker reference image has been supplied, the
alignment falls back to the contour strategy; when a marker has been
supplied and some quadrant's best template-matching score is below the
minimum-confidence floor, marker alignment fails with a marker-not-found
error at the first such quadrant — the sheet's processing then records
that error, with *no* fallback to the contour strategy; when all four
quadrant scores reach the floor, the sheet is aligned by markers. -/
theorem alignWithMarkers_spec {γ μ : Type} (c : Except TErr γ) (scores : ℕ → ℚ) (thr : ℚ) :
    (alignWithMarkers c (none : Option μ) scores thr = c.map AlignVia.contour) ∧
    (∀ m : μ, (∃ q ∈ List.range 4, scores q < thr) →
      ∃ q ∈ List.range 4, alignWithMarkers c (some m) scores thr =
        .error (.markerNotFound q (scores q)) ∧ scores q < thr) ∧
    (∀ m : μ, (∀ q ∈ List.range 4, thr ≤ scores q) →
      alignWithMarkers c (some m) scores thr = .ok .markerAligned) := by
  refine ⟨rfl, ?_, ?_⟩
  · intro m hex
    rcases hfind : (List.range 4).find? (fun q => decide (scores q < thr)) with _ | q
    · obtain ⟨q, hq, hlt⟩ := hex
      have := List.find?_eq_none.mp hfind q hq
      simp at this
      exact absurd hlt (not_lt.mpr this)
    · refine ⟨q, List.mem_of_find?_eq_some hfind, ?_, ?_⟩
      · rw [alignWithMarkers, hfind]
      · have := List.find?_some hfind
        simpa using this
  · intro m hall
    have hfind : (List.range 4).find? (fun q => decide (scores q < thr)) = none := by
      rw [List.find?_eq_none]
      intro q hq
      simp only [decide_eq_true_eq]
      exact not_lt.mpr (hall q hq)
    rw [alignWithMarkers, hfind]

/-- Counterexample to C7 as stated: with a marker supplied and quadrant
0's best score 0.1 below the floor 0.2, the code does *not* fall back to
the contour strategy — it fails with a marker-not-found error (the
contour strategy is only used when no marker is supplied at all). -/
theorem alignWithMarkers_cex :
    alignWithMarkers (Except.ok (0 : ℕ)) (some (0 : ℕ)) lowScores (1 / 5) =
      .error (.markerNotFound 0 (1 / 10)) ∧
    alignWithMarkers (Except.ok (0 : ℕ)) (none : Option ℕ) lowScores (1 / 5) =
      .ok (AlignVia.contour 0) := by
  constructor
  · have hr : List.range 4 = [0, 1, 2, 3] := rfl
    have hfind : (List.range 4).find? (fun q => decide (lowScores q < 1 / 5)) = some 0 := by
      rw [hr]
      rw [List.find?_cons_of_pos]
      norm_num [lowScores]
    rw [alignWithMarkers, hfind]
    norm_num [lowScores]
  · rfl

theorem parseFieldStringL_error_classified (s : List Char) (e : TErr)
    (h : parseFieldStringL s = .error e) :
    e = .invalidFieldString s ∨ e = .invalidRange s := by
  rw [parseFieldStringL] at h
  split at h
  · split at h
    · simp_all
    · split at h
      · simp_all
      · split at h
        · split at h
          · simp_all
          · split at h
            · split at h
              · simp_all
              · simp_all
            · simp_all
        · simp_all
  · simp_all

theorem parseFields_error_classified (ls : List String) (e : TErr)
    (h : parseFields ls = .error e) :
    (∃ s, e = .invalidFieldString s) ∨ (∃ s, e = .invalidRange s) := by
  induction ls with
  | nil => simp [parseFields] at h
  | cons s rest ih =>
    rw [parseFields] at h
    split at h
    · rename_i e' he'
      cases Except.error.inj h
      rcases parseFieldStringL_error_classified _ _ he' with h1 | h1
      · exact Or.inl ⟨_, h1⟩
      · exact Or.inr ⟨_, h1⟩
    · split at h
      · rename_i e' he'
        cases Except.error.inj h
        exact ih he'
      · simp_all

theorem blockBubbles_error_classified (gd : ℚ × ℚ) (n : String) (fb : FieldBlock) (e : TErr)
    (h : blockBubbles gd n fb = .error e) :
    (∃ s, e = .invalidFieldString s) ∨ (∃ s, e = .invalidRange s) := by
  rw [blockBubbles] at h
  split at h
  · simp_all
  · split at h
    · rename_i e' he
      cases Except.error.inj h
      exact parseFields_error_classified _ _ he
    · simp_all

theorem blocksBubbles_error_classified (gd : ℚ × ℚ) (blocks : List (String × FieldBlock))
    (e : TErr) (h : blocksBubbles gd blocks = .error e) :
    (∃ s, e = .invalidFieldString s) ∨ (∃ s, e = .invalidRange s) := by
  induction blocks with
  | nil => simp [blocksBubbles] at h
  | cons nb rest ih =>
    rw [blocksBubbles] at h
    split at h
    · rename_i e' he
      cases Except.error.inj h
      exact blockBubbles_error_classified _ _ _ _ he
    · split at h
      · rename_i e' he
        cases Except.error.inj h
        exact ih he
      · simp_all

/-- C6 (amended): the normalizer fails with the template-format error
exactly when neither the `fieldBlocks` key nor `layout.regions` is
present.  When `layout.regions` alone is present, parsing produces a
canonical bubble list plus the answer key; when `fieldBlocks` is
present, parsing either produces a canonical bubble list plus the
answer key or fails with that format's own field-label validation error
(an invalid token or an invalid range) — never with the format error. -/
theorem parseTemplate_format (t : Template) :
    (parseTemplate t = .error .formatError ↔
      (t.fieldBlocks = none ∧ t.layout.bind Layout.regions = none)) ∧
    (t.fieldBlocks = none → (t.layout.bind Layout.regions).isSome →
      ∃ r, parseTemplate t = .ok r ∧ r.answers = answersOf t) ∧
    (∀ blocks, t.fieldBlocks = some blocks →
      (∃ r, parseTemplate t = .ok r ∧ r.answers = answersOf t) ∨
      (∃ s, parseTemplate t = .error (.invalidFieldString s)) ∨
      (∃ s, parseTemplate t = .error (.invalidRange s))) := by
  rcases hfb : t.fieldBlocks with _ | blocks
  · have hpfb : parseFieldBlocks t = .ok none := by simp [parseFieldBlocks, hfb]
    rcases hl : t.layout with _ | l
    · have hpr : parseRegionsFormat t = none := by simp [parseRegionsFormat, hl]
      have hpt : parseTemplate t = .error .formatError := by
        simp [parseTemplate, hpfb, hpr]
      refine ⟨?_, ?_, ?_⟩
      · simp [hpt, hl]
      · simp [hl]
      · intro blocks hb
        simp_all
    · rcases hr : l.regions with _ | rs
      · have hpr : parseRegionsFormat t = none := by simp [parseRegionsFormat, hl, hr]
        have hpt : parseTemplate t = .error .formatError := by
          simp [parseTemplate, hpfb, hpr]
        refine ⟨?_, ?_, ?_⟩
        · simp [hpt, hl, hr]
        · simp [hl, hr]
        · intro blocks hb
          simp_all
      · have hpr : parseRegionsFormat t =
            some ⟨(rs.map (regionBubbles (t.bubbleDiameter.getD 32))).flatten,
              (t.pageWidth.getD 850, t.pageHeight.getD 1202), answersOf t⟩ := by
          simp [parseRegionsFormat, hl, hr]
        have hpt : parseTemplate t =
            .ok ⟨(rs.map (regionBubbles (t.bubbleDiameter.getD 32))).flatten,
              (t.pageWidth.getD 850, t.pageHeight.getD 1202), answersOf t⟩ := by
          simp [parseTemplate, hpfb, hpr]
        refine ⟨?_, ?_, ?_⟩
        · simp [hpt, hl, hr]
        · intro _ _
          exact ⟨_, hpt, rfl⟩
        · intro blocks hb
          simp_all
  · rcases hbb : blocksBubbles (t.bubbleDimensions.getD (32, 32)) blocks with e | bs
    · have hpfb : parseFieldBlocks t = .error e := by simp [parseFieldBlocks, hfb, hbb]
      have hpt : parseTemplate t = .error e := by simp [parseTemplate, hpfb]
      have hcls := blocksBubbles_error_classified _ _ _ hbb
      refine ⟨?_, ?_, ?_⟩
      · constructor
        · intro h
          rw [hpt] at h
          have he := Except.error.inj h
          rcases hcls with ⟨s, rfl⟩ | ⟨s, rfl⟩ <;> simp_all
        · intro ⟨h1, _⟩
          simp_all
      · intro h1
        simp_all
      · intro blocks2 _
        rcases hcls with ⟨s, rfl⟩ | ⟨s, rfl⟩
        · exact Or.inr (Or.inl ⟨s, hpt⟩)
        · exact Or.inr (Or.inr ⟨s, hpt⟩)
    · have hpfb : parseFieldBlocks t =
          .ok (some ⟨bs, t.pageDimensions.getD (850, 1202), answersOf t⟩) := by
        simp [parseFieldBlocks, hfb, hbb]
      have hpt : parseTemplate t =
          .ok ⟨bs, t.pageDimensions.getD (850, 1202), answersOf t⟩ := by
        simp [parseTemplate, hpfb]
      refine ⟨?_, ?_, ?_⟩
      · simp [hpt, hfb]
      · intro h1
        simp_all
      · intro blocks2 _
        exact Or.inl ⟨_, hpt, rfl⟩

/-- Counterexample to C6 as stated: this template has the `fieldBlocks`
key, yet parsing does not produce a canonical bubble list — it fails
with the range validation error of the token `"q5..1"`. -/
theorem parseTemplate_cex :
    parseTemplate exBadTemplate = .error (.invalidRange ['q', '5', '.', '.', '1']) ∧
    exBadTemplate.fieldBlocks.isSome = true := ⟨rfl, rfl⟩

theorem genRow_map_fieldValue (dir : String) (bd : ℚ × ℚ) (bGap : ℚ) (label : String) :
    ∀ (vs : List String) (pt : ℚ × ℚ),
      (genRow dir bd bGap label vs pt).map (fun b => b.fieldValue) = vs := by
  intro vs
  induction vs with
  | nil => intro pt; rfl
  | cons v vs ih => intro pt; simp [genRow, ih]

theorem genBlock_map_fieldValue (dir : String) (bd : ℚ × ℚ) (bGap lGap : ℚ)
    (vals : List String) :
    ∀ (labels : List String) (lead : ℚ × ℚ),
      (genBlock dir bd bGap lGap vals labels lead).map (fun b => b.fieldValue) =
        (labels.map (fun _ => vals)).flatten := by
  intro labels
  induction labels with
  | nil => intro lead; rfl
  | cons ℓ ls ih => intro lead; simp [genBlock, genRow_map_fieldValue, ih]

/-- C10: for a field block declaring a known preset fieldType, the
preset's bubble-value list and direction override any explicitly
authored `bubbleValues` or `direction` of the block: the generated
bubbles are invariant under changing those two authored keys, the grid
is generated with the preset's direction, and each expanded label
receives exactly the preset's value list. -/
theorem blockBubbles_preset (gd : ℚ × ℚ) (name : String) (fb : FieldBlock)
    (ft : String) (pr : List String × String)
    (hft : fb.fieldType = some ft) (hpr : FIELD_TYPES ft = some pr) :
    (∀ (bv : Option (List String)) (d2 : Option String),
      blockBubbles gd name { fb with bubbleValues := bv, direction := d2 } =
        blockBubbles gd name fb) ∧
    (∀ labels, isQRBlock name fb = false →
      parseFields (fb.fieldLabels.getD []) = .ok labels →
      blockBubbles gd name fb = .ok (genBlock pr.2 (fb.bubbleDimensions.getD gd)
        (fb.bubblesGap.getD 40) (fb.labelsGap.getD 60) pr.1 labels
        (fb.origin.getD (0, 0))) ∧
      (genBlock pr.2 (fb.bubbleDimensions.getD gd) (fb.bubblesGap.getD 40)
        (fb.labelsGap.getD 60) pr.1 labels (fb.origin.getD (0, 0))).map
          (fun b => b.fieldValue) = (labels.map (fun _ => pr.1)).flatten) := by
  have hmerge : applyPreset fb = { fb with bubbleValues := some pr.1, direction := some pr.2 } := by
    simp only [applyPreset, hft, hpr]
  constructor
  · intro bv d2
    have hmerge2 : applyPreset { fb with bubbleValues := bv, direction := d2 } =
        applyPreset fb := by
      simp only [applyPreset, hft, hpr]
    have hqr : isQRBlock name { fb with bubbleValues := bv, direction := d2 } =
        isQRBlock name fb := rfl
    rw [blockBubbles, blockBubbles, hqr, hmerge2]
  · intro labels hq hl
    have hlabels : (applyPreset fb).fieldLabels = fb.fieldLabels := by rw [hmerge]
    constructor
    · rw [blockBubbles, if_neg (by simp [hq]), hlabels, hl]
      simp only [hmerge]
      simp
    · exact genBlock_map_fieldValue _ _ _ _ _ _ _

/-- Witness for C10: despite the authored values `["X","Y"]` and
direction `"vertical"`, the generated bubbles of the `QTYPE_MCQ4` block
carry exactly the preset values A, B, C, D. -/
theorem blockBubbles_preset_witness :
    ∃ bs, blockBubbles (32, 32) "Block1" exPresetBlock = .ok bs ∧
      bs.map (fun b => b.fieldValue) = ["A", "B", "C", "D"] := by
  obtain ⟨h1, h2⟩ := (blockBubbles_preset (32, 32) "Block1" exPresetBlock "QTYPE_MCQ4"
    (["A", "B", "C", "D"], "horizontal") rfl rfl).2 ["q1"] rfl rfl
  exact ⟨_, h1, by rw [h2]; rfl⟩

theorem mem_firstDedupAux (a : String) :
    ∀ (l seen : List String), a ∈ firstDedupAux seen l ↔ a ∈ l ∧ a ∉ seen := by
  intro l
  induction l with
  | nil => intro seen; simp [firstDedupAux]
  | cons x xs ih =>
    intro seen
    by_cases hx : x ∈ seen
    · rw [firstDedupAux, if_pos hx, ih]
      constructor
      · rintro ⟨h1, h2⟩
        exact ⟨List.mem_cons_of_mem _ h1, h2⟩
      · rintro ⟨h1, h2⟩
        rcases List.mem_cons.mp h1 with rfl | h1
        · exact absurd hx h2
        · exact ⟨h1, h2⟩
    · rw [firstDedupAux, if_neg hx]
      constructor
      · intro h
        rcases List.mem_cons.mp h with rfl | h
        · exact ⟨List.mem_cons_self _ _, hx⟩
        · have h2 := (ih (x :: seen)).mp h
          exact ⟨List.mem_cons_of_mem _ h2.1, fun hc => h2.2 (List.mem_cons_of_mem _ hc)⟩
      · rintro ⟨h1, h2⟩
        rcases List.mem_cons.mp h1 with rfl | h1
        · exact List.mem_cons_self _ _
        · by_cases hax : a = x
          · subst hax
            exact List.mem_cons_self _ _
          · refine List.mem_cons_of_mem _ ((ih (x :: seen)).mpr ⟨h1, ?_⟩)
            intro hc
            rcases List.mem_cons.mp hc with h | h
            · exact hax h
            · exact h2 h

theorem mem_firstDedup (a : String) (l : List String) : a ∈ firstDedup l ↔ a ∈ l := by
  rw [firstDedup, mem_firstDedupAux]
  simp

theorem nodup_firstDedupAux : ∀ (l seen : List String), (firstDedupAux seen l).Nodup := by
  intro l
  induction l with
  | nil => intro seen; simp [firstDedupAux]
  | cons x xs ih =>
    intro seen
    by_cases hx : x ∈ seen
    · rw [firstDedupAux, if_pos hx]
      exact ih seen
    · rw [firstDedupAux, if_neg hx]
      refine List.nodup_cons.mpr ⟨?_, ih _⟩
      intro hc
      exact ((mem_firstDedupAux x xs (x :: seen)).mp hc).2 (List.mem_cons_self _ _)

theorem nodup_firstDedup (l : List String) : (firstDedup l).Nodup := nodup_firstDedupAux l []

theorem lookupA_pushAssoc_same (m : List (String × List String)) (k v : String) :
    lookupA (pushAssoc m k v) k = (lookupA m k).map (fun vs => vs ++ [v]) := by
  induction m with
  | nil => rfl
  | cons e rest ih =>
    obtain ⟨k0, vs⟩ := e
    by_cases h : k0 = k
    · rw [pushAssoc, if_pos h, lookupA, if_pos h, lookupA, if_pos h]
      rfl
    · rw [pushAssoc, if_neg h, lookupA, if_neg h, lookupA, if_neg h, ih]

theorem lookupA_pushAssoc_other (m : List (String × List String)) (k v k2 : String)
    (h : k ≠ k2) : lookupA (pushAssoc m k v) k2 = lookupA m k2 := by
  induction m with
  | nil => rfl
  | cons e rest ih =>
    obtain ⟨k0, vs⟩ := e
    by_cases h0 : k0 = k
    · subst h0
      rw [pushAssoc, if_pos rfl, lookupA, if_neg h, lookupA, if_neg h]
    · rw [pushAssoc, if_neg h0]
      by_cases h2 : k0 = k2
      · rw [lookupA, if_pos h2, lookupA, if_pos h2]
      · rw [lookupA, if_neg h2, lookupA, if_neg h2, ih]

theorem pushAssoc_keys (m : List (String × List String)) (k v : String) :
    (pushAssoc m k v).map Prod.fst = m.map Prod.fst := by
  induction m with
  | nil => rfl
  | cons e rest ih =>
    obtain ⟨k0, vs⟩ := e
    by_cases h : k0 = k
    · rw [pushAssoc, if_pos h]
      rfl
    · rw [pushAssoc, if_neg h]
      simp [ih]

theorem markStrip_nil (meanOf : Bubble → ℚ) (t : ℚ) (acc : List (String × List String)) :
    markStrip meanOf t [] acc = acc := rfl

theorem markStrip_cons (meanOf : Bubble → ℚ) (t : ℚ) (b : Bubble) (rest : List Bubble)
    (acc : List (String × List String)) :
    markStrip meanOf t (b :: rest) acc =
      markStrip meanOf t rest
        (if meanOf b < t then pushAssoc acc b.fieldLabel b.fieldValue else acc) := rfl

theorem lookupA_markStrip_same (meanOf : Bubble → ℚ) (t : ℚ) (ℓ : String) :
    ∀ strip : List Bubble, (∀ b ∈ strip, b.fieldLabel = ℓ) →
      ∀ acc, lookupA (markStrip meanOf t strip acc) ℓ =
        (lookupA acc ℓ).map (fun vs =>
          vs ++ (strip.filter (fun b => decide (meanOf b < t))).map (fun b => b.fieldValue)) := by
  intro strip
  induction strip with
  | nil =>
    intro _ acc
    rw [markStrip_nil]
    cases h : lookupA acc ℓ <;> simp
  | cons b rest ih =>
    intro hall acc
    have hb : b.fieldLabel = ℓ := hall b (List.mem_cons_self _ _)
    have hrest := fun b2 hb2 => hall b2 (List.mem_cons_of_mem _ hb2)
    by_cases hf : meanOf b < t
    · rw [markStrip_cons, if_pos hf, ih hrest, hb, lookupA_pushAssoc_same]
      cases h : lookupA acc ℓ <;> simp [hf, List.filter_cons]
    · rw [markStrip_cons, if_neg hf, ih hrest]
      cases h : lookupA acc ℓ <;> simp [hf, List.filter_cons]

theorem lookupA_markStrip_other (meanOf : Bubble → ℚ) (t : ℚ) (ℓ2 : String) :
    ∀ strip : List Bubble, (∀ b ∈ strip, b.fieldLabel ≠ ℓ2) →
      ∀ acc, lookupA (markStrip meanOf t strip acc) ℓ2 = lookupA acc ℓ2 := by
  intro strip
  induction strip with
  | nil => intro _ acc; rfl
  | cons b rest ih =>
    intro hall acc
    have hb : b.fieldLabel ≠ ℓ2 := hall b (List.mem_cons_self _ _)
    have hrest := fun b2 hb2 => hall b2 (List.mem_cons_of_mem _ hb2)
    by_cases hf : meanOf b < t
    · rw [markStrip_cons, if_pos hf, ih hrest, lookupA_pushAssoc_other _ _ _ _ hb]
    · rw [markStrip_cons, if_neg hf, ih hrest]

theorem markStrip_keys (meanOf : Bubble → ℚ) (t : ℚ) :
    ∀ (strip : List Bubble) (acc : List (String × List String)),
      (markStrip meanOf t strip acc).map Prod.fst = acc.map Prod.fst := by
  intro strip
  induction strip with
  | nil => intro acc; rfl
  | cons b rest ih =>
    intro acc
    by_cases hf : meanOf b < t
    · rw [markStrip_cons, if_pos hf, ih, pushAssoc_keys]
    · rw [markStrip_cons, if_neg hf, ih]

theorem stripOf_label (kept : List Bubble) (ℓ : String) :
    ∀ b ∈ stripOf kept ℓ, b.fieldLabel = ℓ := by
  intro b hb
  exact of_decide_eq_true (List.mem_filter.mp hb).2

theorem lookupA_detect_fold (kept : List Bubble) (meanOf : Bubble → ℚ) (sqrtA : ℚ → ℚ) :
    ∀ labs : List String, labs.Nodup →
      ∀ (acc : List (String × List String)) (ℓ : String),
        lookupA (labs.foldl (fun acc2 ℓ2 => markStrip meanOf
            (detectLocalThr kept meanOf sqrtA ℓ2) (stripOf kept ℓ2) acc2) acc) ℓ =
          if ℓ ∈ labs then
            (lookupA acc ℓ).map (fun vs => vs ++ ((stripOf kept ℓ).filter
              (fun b => decide (meanOf b < detectLocalThr kept meanOf sqrtA ℓ))).map
                (fun b => b.fieldValue))
          else lookupA acc ℓ := by
  intro labs
  induction labs with
  | nil =>
    intro _ acc ℓ
    simp
  | cons ℓ0 rest ih =>
    intro hnd acc ℓ
    obtain ⟨hnotin, hnd2⟩ := List.nodup_cons.mp hnd
    rw [List.foldl_cons, ih hnd2]
    by_cases hℓ : ℓ = ℓ0
    · subst hℓ
      rw [if_neg hnotin, if_pos (List.mem_cons_self _ _)]
      exact lookupA_markStrip_same meanOf _ ℓ (stripOf kept ℓ) (stripOf_label kept ℓ) acc
    · have hother : lookupA (markStrip meanOf (detectLocalThr kept meanOf sqrtA ℓ0)
          (stripOf kept ℓ0) acc) ℓ = lookupA acc ℓ :=
        lookupA_markStrip_other meanOf _ ℓ (stripOf kept ℓ0)
          (fun b hb => by rw [stripOf_label kept ℓ0 b hb]; exact fun hc => hℓ hc.symm) acc
      by_cases hm : ℓ ∈ rest
      · rw [if_pos hm, if_pos (List.mem_cons_of_mem _ hm), hother]
      · rw [if_neg hm, if_neg (by simp [hℓ, hm]), hother]

theorem detect_fold_keys (kept : List Bubble) (meanOf : Bubble → ℚ) (sqrtA : ℚ → ℚ) :
    ∀ (labs : List String) (acc : List (String × List String)),
      ((labs.foldl (fun acc2 ℓ2 => markStrip meanOf
          (detectLocalThr kept meanOf sqrtA ℓ2) (stripOf kept ℓ2) acc2) acc)).map Prod.fst =
        acc.map Prod.fst := by
  intro labs
  induction labs with
  | nil => intro acc; rfl
  | cons ℓ0 rest ih =>
    intro acc
    rw [List.foldl_cons, ih, markStrip_keys]

theorem lookupA_init (labs : List String) (ℓ : String) :
    lookupA (labs.map (fun ℓ2 => (ℓ2, ([] : List String)))) ℓ =
      if ℓ ∈ labs then some [] else none := by
  induction labs with
  | nil => rfl
  | cons x xs ih =>
    by_cases h : x = ℓ
    · subst h
      simp [lookupA]
    · rw [List.map_cons, lookupA, if_neg h, ih]
      by_cases h2 : ℓ ∈ xs
      · rw [if_pos h2, if_pos (List.mem_cons_of_mem _ h2)]
      · rw [if_neg h2, if_neg (by simp [Ne.symm h, h2])]

/-- C3: on a rectified sheet whose template bubbles all have usable
ROIs, the detection result has exactly one entry per distinct field
label of the template's bubble list (in first-occurrence order); each
field's selection list consists of exactly the values of its bubbles
whose mean intensity is strictly below the strip's local threshold; and
a field's selection is empty exactly when none of its bubbles is
classified as filled. -/
theorem detectAnswers_spec (imgW imgH : ℚ) (meanOf : Bubble → ℚ) (sqrtA : ℚ → ℚ)
    (bubbles : List Bubble) (hv : ∀ b ∈ bubbles, roiOk imgW imgH b = true) :
    ((detectAnswers imgW imgH meanOf sqrtA bubbles).map Prod.fst =
      firstDedup (bubbles.map (fun b => b.fieldLabel))) ∧
    (∀ ℓ ∈ firstDedup (bubbles.map (fun b => b.fieldLabel)),
      lookupA (detectAnswers imgW imgH meanOf sqrtA bubbles) ℓ =
        some (((stripOf bubbles ℓ).filter (fun b =>
          decide (meanOf b < detectLocalThr bubbles meanOf sqrtA ℓ))).map
            (fun b => b.fieldValue))) ∧
    (∀ ℓ ∈ firstDedup (bubbles.map (fun b => b.fieldLabel)),
      (lookupA (detectAnswers imgW imgH meanOf sqrtA bubbles) ℓ = some [] ↔
        ∀ b ∈ stripOf bubbles ℓ, ¬ meanOf b < detectLocalThr bubbles meanOf sqrtA ℓ)) := by
  have hkept : bubbles.filter (roiOk imgW imgH) = bubbles := List.filter_eq_self.mpr hv
  have hunf : detectAnswers imgW imgH meanOf sqrtA bubbles =
      (stripLabels bubbles).foldl
        (fun acc ℓ => markStrip meanOf (detectLocalThr bubbles meanOf sqrtA ℓ)
          (stripOf bubbles ℓ) acc)
        ((firstDedup (bubbles.map (fun b => b.fieldLabel))).map
          (fun ℓ => (ℓ, ([] : List String)))) := by
    rw [detectAnswers, hkept]
  have hnd : (stripLabels bubbles).Nodup := nodup_firstDedup _
  have hsame : stripLabels bubbles = firstDedup (bubbles.map (fun b => b.fieldLabel)) := rfl
  have hmain : ∀ ℓ ∈ firstDedup (bubbles.map (fun b => b.fieldLabel)),
      lookupA (detectAnswers imgW imgH meanOf sqrtA bubbles) ℓ =
        some (((stripOf bubbles ℓ).filter (fun b =>
          decide (meanOf b < detectLocalThr bubbles meanOf sqrtA ℓ))).map
            (fun b => b.fieldValue)) := by
    intro ℓ hℓ
    rw [hunf, lookupA_detect_fold bubbles meanOf sqrtA (stripLabels bubbles) hnd,
      if_pos (hsame ▸ hℓ), lookupA_init, if_pos hℓ]
    simp
  refine ⟨?_, hmain, ?_⟩
  · rw [hunf, detect_fold_keys, List.map_map]
    have hid : (Prod.fst ∘ fun ℓ : String => (ℓ, ([] : List String))) = id := rfl
    rw [hid, List.map_id]
  · intro ℓ hℓ
    rw [hmain ℓ hℓ]
    constructor
    · intro h
      have h2 := Option.some.inj h
      intro b hb hlt
      have : b ∈ ((stripOf bubbles ℓ).filter (fun b =>
          decide (meanOf b < detectLocalThr bubbles meanOf sqrtA ℓ))) :=
        List.mem_filter.mpr ⟨hb, decide_eq_true hlt⟩
      rw [List.map_eq_nil_iff] at h2
      rw [h2] at this
      exact absurd this (List.not_mem_nil b)
    · intro h
      have h2 : ((stripOf bubbles ℓ).filter (fun b =>
          decide (meanOf b < detectLocalThr bubbles meanOf sqrtA ℓ))) = [] := by
        rw [List.filter_eq_nil_iff]
        intro b hb
        simp only [decide_eq_true_eq]
        exact h b hb
      rw [h2]
      rfl

/-- Witness for C3: on the concrete sheet, field `q1` selects exactly
`A` (mean 10 below the local threshold 105) and not `B` (mean 200). -/
theorem detectAnswers_spec_witness :
    lookupA (detectAnswers 100 100 exMeanOf (fun q => q) exBubbles) "q1" = some ["A"] := by
  have hv : ∀ b ∈ exBubbles, roiOk 100 100 b = true := by
    intro b hb
    rcases List.mem_cons.mp hb with rfl | hb
    · norm_num [roiOk, roiW, roiH]
    · rcases List.mem_cons.mp hb with rfl | hb
      · norm_num [roiOk, roiW, roiH]
      · exact absurd hb (List.not_mem_nil b)
  have hmem : "q1" ∈ firstDedup (exBubbles.map (fun b => b.fieldLabel)) := by
    rw [mem_firstDedup]
    simp [exBubbles]
  have h := (detectAnswers_spec 100 100 exMeanOf (fun q => q) exBubbles hv).2.1 "q1" hmem
  have hstrip : stripOf exBubbles "q1" = exBubbles := rfl
  have hmeans : stripMeans exBubbles exMeanOf "q1" = [10, 200] := rfl
  have hmax : listMax [(10 : ℚ), 200] = 200 := by
    show max (10 : ℚ) 200 = 200
    exact max_eq_right (by norm_num)
  have hmin : listMin [(10 : ℚ), 200] = 10 := by
    show min (10 : ℚ) 200 = 10
    exact min_eq_left (by norm_num)
  have ht : detectLocalThr exBubbles exMeanOf (fun q => q) "q1" = 105 := by
    rw [detectLocalThr, hmeans, calculateLocalThreshold, if_neg (by norm_num),
      if_pos (by norm_num), hmax, hmin]
    norm_num
  rw [h]
  simp only [ht, hstrip]
  have hBA : ("B" = "A") = False := eq_false (by decide)
  norm_num [exBubbles, exMeanOf, List.filter_cons, hBA]
